import Mathlib

/-!
# LingoPop: verification of the Entry Resolver, Scenario Session and Audio Pipeline

A shallow embedding of the parts of the LingoPop application relevant to the
resolver (term lookup with cache-first de-duplication and parallel enrichment),
the scenario roleplay session (single-flight turn loop and terminal evaluation)
and the PCM16 audio decode path, together with theorems settling the spec's
claims about them.

The external generative service ("Oracle") is modelled by passing its response
for each call as an explicit parameter (`Except Unit _` for calls whose
rejection is observable, `Option _` for calls that internally swallow failure).
All definitions are transcribed from `src/App.tsx` and
`src/services/geminiService.ts`.
-/

namespace LingoPop

/-! ## Data model (src/types.ts) -/

/-- The supported languages (enum `Language` in `types.ts`). -/
inductive Language where
  | English | Chinese | Spanish | French | German
  | Japanese | Korean | Portuguese | Russian | Arabic
deriving DecidableEq

/-- An example sentence attached to a dictionary entry (`Example` in `types.ts`). -/
structure ExampleSentence where
  text : String
  phonetic : String
  translation : String
deriving DecidableEq

/-- A resolved dictionary entry (`DictEntry` in `types.ts`).  The `id` is the
string of `Date.now()` in the source; we model identifiers as naturals.
`term` is the user's original input; `imageUrl` is optional. -/
structure DictEntry where
  id : Nat
  term : String
  targetTerm : String
  phonetic : String
  nativeDefinition : String
  examples : List ExampleSentence
  usageNote : String
  imageUrl : Option String
  createdAt : Nat
deriving DecidableEq

/-- The data returned by `lookupTerm` (the Enrich Oracle call): a `DictEntry`
minus `id`, `createdAt`, `imageUrl` and `term`
(`Omit<DictEntry, 'id' | 'createdAt' | 'imageUrl' | 'term'>` in the source). -/
structure LookupData where
  targetTerm : String
  phonetic : String
  nativeDefinition : String
  examples : List ExampleSentence
  usageNote : String
deriving DecidableEq

/-! ## String primitives

The source compares terms with JavaScript's `toLowerCase()` and guards inputs
with `trim()`.  We model both character-wise over the string's character list
(JS `toLowerCase` lower-cases each character; JS `trim` strips leading and
trailing whitespace), keeping the definitions structurally recursive so that
concrete instances evaluate. -/

/-- Model of JavaScript `String.prototype.toLowerCase`. -/
def toLowerCase (s : String) : String :=
  ⟨s.data.map Char.toLower⟩

/-- Model of JavaScript `String.prototype.trim`. -/
def trim (s : String) : String :=
  ⟨(((s.data.dropWhile Char.isWhitespace).reverse).dropWhile Char.isWhitespace).reverse⟩

/-! ## Entry Resolver (`handleSearch` and `toggleSave` in src/App.tsx)

`handleSearch` first scans `savedEntries` for a case-insensitive match on the
saved `term` (no trimming is applied: the `SearchHeader` form only checks
`input.trim()` for non-emptiness and passes the untrimmed input along).  On a
miss it runs `lookupTerm` (Enrich) and `generateConceptImage` (GenerateImage)
via `Promise.all`.  `generateConceptImage` never rejects — it catches every
failure and resolves `undefined` — so the join rejects exactly when
`lookupTerm` rejects; we model the Enrich outcome as `Except Unit LookupData`
and the image outcome as `Option String`. -/

/-- The cache scan of `handleSearch` (App.tsx):
`savedEntries.find(e => e.term.toLowerCase() === term.toLowerCase())`. -/
def cacheLookup (savedEntries : List DictEntry) (term : String) : Option DictEntry :=
  savedEntries.find? (fun e => toLowerCase e.term == toLowerCase term)

/-- Assembly of the new entry on a cache miss (object literal in
`handleSearch`); `now` stands for `Date.now()`, used for both `id` and
`createdAt`. -/
def mkEntry (term : String) (d : LookupData) (imageUrl : Option String) (now : Nat) : DictEntry :=
  { id := now
    term := term
    targetTerm := d.targetTerm
    phonetic := d.phonetic
    nativeDefinition := d.nativeDefinition
    examples := d.examples
    usageNote := d.usageNote
    imageUrl := imageUrl
    createdAt := now }

/-- The observable outcome of one `handleSearch` call: a cache hit (no Oracle
call issued), a freshly assembled entry (Oracle consulted), or the
`LookupFailure` alert branch. -/
inductive SearchOutcome where
  | hit (e : DictEntry)
  | fresh (e : DictEntry)
  | failure
deriving DecidableEq

/-- `handleSearch` (App.tsx): cache check, then `Promise.all([lookupTerm,
generateConceptImage])`.  `enrich` is the settled outcome of `lookupTerm`,
`image` the (never-rejecting) outcome of `generateConceptImage`.  On the hit
branch the Oracle parameters are not consulted at all, mirroring the early
`return` before any network call. -/
def handleSearch (savedEntries : List DictEntry) (term : String)
    (enrich : Except Unit LookupData) (image : Option String) (now : Nat) : SearchOutcome :=
  match cacheLookup savedEntries term with
  | some existing => .hit existing
  | none =>
    match enrich with
    | .error _ => .failure
    | .ok textData => .fresh (mkEntry term textData image now)

/-- The application state touched by search and save: the notebook
(`savedEntries`) and the entry being viewed (`currentEntry`). -/
structure AppState where
  savedEntries : List DictEntry
  currentEntry : Option DictEntry
deriving DecidableEq

/-- The state update performed by `handleSearch`: a hit or a successful miss
sets `currentEntry`; the failure branch only shows an alert and leaves the
state alone.  In every branch `savedEntries` is untouched. -/
def appSearch (s : AppState) (term : String)
    (enrich : Except Unit LookupData) (image : Option String) (now : Nat) : AppState :=
  match handleSearch s.savedEntries term enrich image now with
  | .hit e => { s with currentEntry := some e }
  | .fresh e => { s with currentEntry := some e }
  | .failure => s

/-- `toggleSave` (App.tsx): if the current entry's `id` is already in the
notebook, remove it (unsave); otherwise prepend it (save).  A missing
`currentEntry` is a no-op (`if (!currentEntry) return`). -/
def toggleSave (s : AppState) : AppState :=
  match s.currentEntry with
  | none => s
  | some c =>
    if s.savedEntries.any (fun e => e.id == c.id) then
      { s with savedEntries := s.savedEntries.filter (fun e => e.id != c.id) }
    else
      { s with savedEntries := c :: s.savedEntries }

/-- The states the UI can reach from a fresh start (empty notebook, nothing
viewed) by any sequence of searches (with arbitrary Oracle outcomes and
arbitrary `Date.now()` values) and save/unsave toggles. -/
inductive Reachable : AppState → Prop where
  | init : Reachable ⟨[], none⟩
  | search (s : AppState) (term : String) (enrich : Except Unit LookupData)
      (image : Option String) (now : Nat) :
      Reachable s → Reachable (appSearch s term enrich image now)
  | save (s : AppState) : Reachable s → Reachable (toggleSave s)

/-! ## Scenario Session (src/App.tsx `ScenarioChat`, `App`;
src/services/geminiService.ts `chatInScenario`, `evaluateScenario`) -/

/-- A chat turn's author: `'user'` (learner) or `'model'` (counterpart). -/
inductive Role where
  | user | model
deriving DecidableEq

/-- One turn of a roleplay conversation (`ChatMessage` in `types.ts`). -/
structure ChatMessage where
  role : Role
  text : String
deriving DecidableEq

/-- A roleplay premise (`Scenario` in `types.ts`). -/
structure Scenario where
  id : String
  title : String
  description : String
  openingLine : String
deriving DecidableEq

/-- The local state of the `ScenarioChat` component: the history, the text in
the input box and the `loading` flag that is `true` exactly while a turn
request is outstanding. -/
structure ScenarioChatState where
  history : List ChatMessage
  input : String
  loading : Bool
deriving DecidableEq

/-- Seeding the session on scenario selection: `useState` initialises the
history with one counterpart turn holding the scenario's opening line. -/
def initialScenarioState (sc : Scenario) : ScenarioChatState :=
  { history := [⟨Role.model, sc.openingLine⟩], input := "", loading := false }

/-- The `send` handler of `ScenarioChat` (App.tsx).  The guard
`if (!input.trim() || loading) return;` rejects a submission outright while a
request is pending or the input is blank.  Otherwise the learner turn is
appended, the input cleared, `loading` set, and `chatInScenario` is called with
the **whole** new history.  The second component is the history sent with the
issued turn request (`none` when no request is issued). -/
def send (s : ScenarioChatState) : ScenarioChatState × Option (List ChatMessage) :=
  if trim s.input = "" ∨ s.loading = true then (s, none)
  else
    let newHistory := s.history ++ [⟨Role.user, s.input⟩]
    ({ history := newHistory, input := "", loading := true }, some newHistory)

/-- Completion of a turn request in `send`: the counterpart reply is appended
(`setHistory([...newHistory, { role: 'model', text: resp }])`) and the
`finally` block clears `loading`.  `chatInScenario` never rejects (its body is
wrapped in a `try`/`catch` returning `"..."`), so this success continuation
always runs. -/
def receiveTurn (s : ScenarioChatState) (resp : String) : ScenarioChatState :=
  { s with history := s.history ++ [⟨Role.model, resp⟩], loading := false }

/-- `chatInScenario` (geminiService.ts): returns `response.text || "..."`, and
`"..."` from its `catch`; the Oracle outcome is passed explicitly. -/
def chatInScenario (history : List ChatMessage) (sc : Scenario) (targetLang : Language)
    (oracle : Except Unit String) : String :=
  match oracle with
  | .ok t => if t = "" then "..." else t
  | .error _ => "..."

/-- A correction item of a scenario report (`types.ts`). -/
structure Correction where
  original : String
  correction : String
  explanation : String
deriving DecidableEq

/-- The evaluation outcome of a session (`ScenarioReport` in `types.ts`). -/
structure ScenarioReport where
  score : Int
  feedback : String
  corrections : List Correction
deriving DecidableEq

/-- `evaluateScenario` (geminiService.ts).  Its whole body sits inside a
`try`; the `catch` returns the fixed fallback report, so the function is total
— it never rejects.  `oracle` is the combined outcome of the EvaluateSession
call and the parse of its response (`JSON.parse(response.text || "{}")`): any
throw anywhere in the `try` lands in the `catch`. -/
def evaluateScenario (history : List ChatMessage) (sourceLang targetLang : Language)
    (oracle : Except Unit ScenarioReport) : ScenarioReport :=
  match oracle with
  | .ok report => report
  | .error _ =>
    { score := 0
      feedback := "Could not evaluate session."
      corrections := [] }

/-- The top-level view of the `App` component (`ViewState` in `types.ts`). -/
inductive ViewState where
  | onboarding | search | result | notebook | flashcards
  | scenarioMenu | scenarioChat | scenarioReport
deriving DecidableEq

/-- The `onEnd` handler of the scenario chat in `App` (App.tsx): it switches
to `'scenario-report'`, awaits `evaluateScenario` and stores the report.  Its
`catch` would fall back to `'scenario-menu'`, but `evaluateScenario` never
rejects (see above), so the `try` always completes: the resulting view is the
report view and the stored report is whatever `evaluateScenario` returned. -/
def onEnd (hist : List ChatMessage) (sourceLang targetLang : Language)
    (oracle : Except Unit ScenarioReport) : ViewState × Option ScenarioReport :=
  (ViewState.scenarioReport, some (evaluateScenario hist sourceLang targetLang oracle))

/-! ## Audio Pipeline (`decodeAudioData` in src/services/geminiService.ts)

The source turns the base64 payload into a byte buffer (`Uint8Array` stores
mask to eight bits), reinterprets it as an `Int16Array` — which fails when the
byte length is odd — and divides every 16-bit little-endian signed sample by
`32768.0`.  We model bytes as naturals (masked mod 256 on store) and samples as
rationals. -/

/-- The signed little-endian 16-bit value of a byte pair, as stored by
`Uint8Array` (mod-256 masking) and read back by `Int16Array`. -/
def int16OfPair (lo hi : Nat) : Int :=
  if lo % 256 + 256 * (hi % 256) < 32768 then ((lo % 256 + 256 * (hi % 256) : Nat) : Int)
  else ((lo % 256 + 256 * (hi % 256) : Nat) : Int) - 65536

/-- The `Int16Array` view of the byte buffer: every two bytes become one
signed sample; an odd byte count makes the `Int16Array` constructor throw,
modelled as `none`. -/
def pcm16Samples : List Nat → Option (List Int)
  | [] => some []
  | [_] => none
  | lo :: hi :: rest => (pcm16Samples rest).map (fun t => int16OfPair lo hi :: t)

/-- `decodeAudioData` (geminiService.ts): the float channel written into the
audio buffer, `channelData[i] = dataInt16[i] / 32768.0`. -/
def decodeAudioData (bytes : List Nat) : Option (List Rat) :=
  (pcm16Samples bytes).map (List.map (fun v : Int => (v : Rat) / 32768))

/-! ## Helper lemmas about the PCM16 decode -/

/-- Induction on byte lists two bytes at a time, matching the recursion of
`pcm16Samples`. -/
theorem bytePairInduction {p : List Nat → Prop} (h0 : p []) (h1 : ∀ b, p [b])
    (h2 : ∀ lo hi rest, p rest → p (lo :: hi :: rest)) : ∀ bs, p bs
  | [] => h0
  | [b] => h1 b
  | lo :: hi :: rest => h2 lo hi rest (bytePairInduction h0 h1 h2 rest)

/-- An even-length byte buffer always decodes (the `Int16Array` view exists). -/
theorem pcm16Samples_total_of_even : ∀ bs : List Nat, bs.length % 2 = 0 →
    ∃ out, pcm16Samples bs = some out := by
  intro bs
  induction bs using bytePairInduction with
  | h0 => intro _; exact ⟨[], rfl⟩
  | h1 b => intro h; simp at h
  | h2 lo hi rest ih =>
    intro h
    have hr : rest.length % 2 = 0 := by
      simp only [List.length_cons] at h
      omega
    obtain ⟨t, ht⟩ := ih hr
    exact ⟨int16OfPair lo hi :: t, by simp [pcm16Samples, ht]⟩

/-- The `Int16Array` view has half as many entries as the byte buffer and its
`i`-th entry is the signed little-endian value of bytes `2i` and `2i+1`. -/
theorem pcm16Samples_spec : ∀ (bs : List Nat) (out : List Int),
    pcm16Samples bs = some out →
    out.length = bs.length / 2 ∧
    ∀ i : Nat, i < out.length →
      out.getD i 0 = int16OfPair (bs.getD (2 * i) 0) (bs.getD (2 * i + 1) 0) := by
  intro bs
  induction bs using bytePairInduction with
  | h0 =>
    intro out h
    simp only [pcm16Samples, Option.some.injEq] at h
    subst h
    simp
  | h1 b => intro out h; simp [pcm16Samples] at h
  | h2 lo hi rest ih =>
    intro out h
    simp only [pcm16Samples, Option.map_eq_some'] at h
    obtain ⟨t, ht, rfl⟩ := h
    obtain ⟨hlen, hval⟩ := ih t ht
    refine ⟨by simp [hlen]; omega, ?_⟩
    intro i hi'
    cases i with
    | zero => simp
    | succ j =>
      have hj : j < t.length := by simpa using hi'
      have e1 : 2 * (j + 1) = 2 * j + 1 + 1 := by omega
      rw [e1]
      simpa using hval j hj

/-- Every entry of the `Int16Array` view is a signed 16-bit value. -/
theorem int16OfPair_bounds (lo hi : Nat) :
    -32768 ≤ int16OfPair lo hi ∧ int16OfPair lo hi ≤ 32767 := by
  unfold int16OfPair
  have h1 : lo % 256 < 256 := Nat.mod_lt _ (by norm_num)
  have h2 : hi % 256 < 256 := Nat.mod_lt _ (by norm_num)
  split <;> omega

/-- Bounds on one normalized sample. -/
theorem sample_in_range (v : Int) (h1 : -32768 ≤ v) (h2 : v ≤ 32767) :
    -1 ≤ (v : Rat) / 32768 ∧ (v : Rat) / 32768 ≤ 32767 / 32768 := by
  have hc : (0 : Rat) < 32768 := by norm_num
  constructor
  · rw [le_div_iff₀ hc]
    have hv : ((-32768 : Int) : Rat) ≤ (v : Rat) := by exact_mod_cast h1
    push_cast at hv
    linarith
  · rw [div_le_div_iff₀ hc hc]
    have hv : (v : Rat) ≤ ((32767 : Int) : Rat) := by exact_mod_cast h2
    push_cast at hv
    linarith

/-- All decoded int16 values lie in the signed 16-bit range. -/
theorem pcm16Samples_mem_bounds : ∀ (bs : List Nat) (out : List Int),
    pcm16Samples bs = some out → ∀ v ∈ out, -32768 ≤ v ∧ v ≤ 32767 := by
  intro bs
  induction bs using bytePairInduction with
  | h0 =>
    intro out h v hv
    simp only [pcm16Samples, Option.some.injEq] at h
    subst h
    simp at hv
  | h1 b => intro out h; simp [pcm16Samples] at h
  | h2 lo hi rest ih =>
    intro out h v hv
    simp only [pcm16Samples, Option.map_eq_some'] at h
    obtain ⟨t, ht, rfl⟩ := h
    rcases List.mem_cons.mp hv with hv | hv
    · subst hv
      exact int16OfPair_bounds lo hi
    · exact ih t ht v hv

/-! ## Sample data used by concrete witnesses and counterexamples -/

/-- A concrete saved entry for the term `"hola"`. -/
def holaEntry : DictEntry :=
  { id := 1, term := "hola", targetTerm := "hola", phonetic := "o.la"
    nativeDefinition := "hello", examples := [], usageNote := ""
    imageUrl := none, createdAt := 0 }

/-- A concrete Enrich result for the term `"hola"`. -/
def holaLookup : LookupData :=
  { targetTerm := "hola", phonetic := "o.la", nativeDefinition := "hello"
    examples := [], usageNote := "" }

/-! ## Claims -/

/-- C1: on a cache miss, `resolve` fails with `LookupFailure` if and only if
the Enrich call fails — for every image outcome, which is discarded on the
failure path — and when Enrich succeeds it returns an assembled `DictEntry`
whose image reference is present exactly when `GenerateImage` succeeded, an
image failure never failing the call. -/
theorem resolve_join_asymmetric (savedEntries : List DictEntry) (term : String)
    (enrich : Except Unit LookupData) (image : Option String) (now : Nat)
    (hmiss : cacheLookup savedEntries term = none) :
    (handleSearch savedEntries term enrich image now = SearchOutcome.failure ↔
      enrich = Except.error ()) ∧
    (∀ d : LookupData, enrich = Except.ok d →
      handleSearch savedEntries term enrich image now =
        SearchOutcome.fresh (mkEntry term d image now) ∧
      ((mkEntry term d image now).imageUrl.isSome ↔ image.isSome)) := by
  unfold handleSearch
  rw [hmiss]
  cases enrich with
  | error e => cases e; simp
  | ok d =>
    refine ⟨by simp, ?_⟩
    intro d' hd'
    obtain rfl : d = d' := by simpa using hd'
    exact ⟨rfl, by simp [mkEntry]⟩

/-- Witness for C1: with an empty notebook, a succeeding Enrich and a
succeeding image call, the search assembles a fresh entry. -/
theorem resolve_join_asymmetric_witness :
    handleSearch [] "hola" (Except.ok holaLookup) (some "img") 0 =
      SearchOutcome.fresh (mkEntry "hola" holaLookup (some "img") 0) :=
  ((resolve_join_asymmetric [] "hola" (Except.ok holaLookup) (some "img") 0 rfl).2
    holaLookup rfl).1

/-- C2: while a turn request is pending (`loading = true`), a further learner
submission is rejected outright: the session state — in particular the history,
its length and its order — is unchanged, and no second Oracle call is issued. -/
theorem single_flight_rejects_pending (s : ScenarioChatState)
    (hpending : s.loading = true) :
    send s = (s, none) ∧ (send s).1.history = s.history ∧
      (send s).1.history.length = s.history.length := by
  have h : send s = (s, none) := by
    unfold send
    rw [if_pos (Or.inr hpending)]
  exact ⟨h, by rw [h], by rw [h]⟩

/-- Witness for C2: a concrete pending session rejects the submission. -/
theorem single_flight_rejects_pending_witness :
    send ⟨[⟨Role.model, "Hi"⟩], "hello", true⟩ =
      (⟨[⟨Role.model, "Hi"⟩], "hello", true⟩, none) :=
  (single_flight_rejects_pending ⟨[⟨Role.model, "Hi"⟩], "hello", true⟩ rfl).1

/-- C3 counterexample: when the EvaluateSession call fails, the session does
NOT return to the menu — `evaluateScenario` swallows the failure and the app
lands in the report view holding the fallback report. -/
theorem evaluation_failure_counterexample :
    onEnd [] Language.English Language.Spanish (Except.error ()) =
      (ViewState.scenarioReport, some ⟨0, "Could not evaluate session.", []⟩) ∧
    ViewState.scenarioReport ≠ ViewState.scenarioMenu :=
  ⟨rfl, by decide⟩

/-- C3 amended: for every ended session, if the EvaluateSession call fails the
session transitions to the Report view showing the fixed fallback report
(score 0, "Could not evaluate session.", no corrections); the back-to-Menu
failure path in `App` is unreachable because `evaluateScenario` never
rejects. -/
theorem evaluation_failure_shows_fallback (hist : List ChatMessage)
    (sourceLang targetLang : Language) (e : Unit) :
    onEnd hist sourceLang targetLang (Except.error e) =
      (ViewState.scenarioReport, some ⟨0, "Could not evaluate session.", []⟩) := rfl

/-- Witness for C3 amended: a concrete failing evaluation lands on the report
view with the fallback report. -/
theorem evaluation_failure_shows_fallback_witness :
    onEnd [] Language.English Language.French (Except.error ()) =
      (ViewState.scenarioReport, some ⟨0, "Could not evaluate session.", []⟩) :=
  evaluation_failure_shows_fallback [] Language.English Language.French ()

/-- C4 counterexample: the cache comparison does not trim whitespace — for the
saved entry `"hola"` and the query `"hola "` (differing only by a trailing
space) the cache misses and `resolve` consults the Oracle (here, failing). -/
theorem cache_whitespace_misses :
    handleSearch [holaEntry] "hola " (Except.error ()) none 0 =
      SearchOutcome.failure ∧
    SearchOutcome.failure ≠ SearchOutcome.hit holaEntry :=
  ⟨rfl, by decide⟩

/-- C4 amended: for every saved entry and every query term equal to the
entry's term up to letter case only (comparison casefolds, without trimming),
`resolve` hits the cache in a duplicate-free notebook: it returns that saved
entry unchanged and, the outcome being the same for every Oracle response,
issues no Oracle call. -/
theorem cache_casefold_hit (savedEntries : List DictEntry) (e : DictEntry)
    (term : String)
    (hP : savedEntries.Pairwise (fun a b => toLowerCase a.term ≠ toLowerCase b.term))
    (he : e ∈ savedEntries) (hterm : toLowerCase term = toLowerCase e.term) :
    ∀ (enrich : Except Unit LookupData) (image : Option String) (now : Nat),
      handleSearch savedEntries term enrich image now = SearchOutcome.hit e := by
  intro enrich image now
  have hfind : cacheLookup savedEntries term = some e := by
    unfold cacheLookup
    cases hfound : savedEntries.find? (fun x => toLowerCase x.term == toLowerCase term) with
    | none =>
      exact absurd (by simp [hterm]) ((List.find?_eq_none.mp hfound) e he)
    | some e' =>
      have hmem := List.mem_of_find?_eq_some hfound
      have hpred : toLowerCase e'.term = toLowerCase term := by
        simpa using List.find?_some hfound
      have hee : e' = e := by
        by_contra hne
        exact hP.forall (fun a b hab => hab.symm) hmem he hne (hpred.trans hterm)
      rw [hee]
  unfold handleSearch
  rw [hfind]

/-- Witness for C4 amended: the query `"HOLA"` hits the saved entry
`"hola"` regardless of the Oracle. -/
theorem cache_casefold_hit_witness :
    handleSearch [holaEntry] "HOLA" (Except.error ()) none 0 =
      SearchOutcome.hit holaEntry :=
  cache_casefold_hit [holaEntry] holaEntry "HOLA" (by simp) (by simp)
    (by decide) (Except.error ()) none 0

/-- C5: the history sent with turn request N+1 equals the history sent with
turn request N, plus the counterpart reply to turn N, plus exactly the newest
learner turn, in submission order; and every request carries the session's
full ordered history. -/
theorem history_resent_in_full (hist : List ChatMessage) (u1 u2 r : String)
    (h1 : trim u1 ≠ "") (h2 : trim u2 ≠ "") :
    (send ⟨hist, u1, false⟩).2 = some (hist ++ [⟨Role.user, u1⟩]) ∧
    (send { receiveTurn (send ⟨hist, u1, false⟩).1 r with input := u2 }).2 =
      some ((hist ++ [⟨Role.user, u1⟩]) ++ [⟨Role.model, r⟩, ⟨Role.user, u2⟩]) ∧
    (send { receiveTurn (send ⟨hist, u1, false⟩).1 r with input := u2 }).2 =
      some (send { receiveTurn (send ⟨hist, u1, false⟩).1 r with input := u2 }).1.history := by
  unfold send receiveTurn
  simp [h1, h2]

/-- Witness for C5: a concrete two-turn exchange resends the full history. -/
theorem history_resent_in_full_witness :
    (send ⟨[], "a", false⟩).2 = some [⟨Role.user, "a"⟩] ∧
    (send { receiveTurn (send ⟨[], "a", false⟩).1 "ok" with input := "b" }).2 =
      some (([] ++ [⟨Role.user, "a"⟩]) ++ [⟨Role.model, "ok"⟩, ⟨Role.user, "b"⟩]) ∧
    (send { receiveTurn (send ⟨[], "a", false⟩).1 "ok" with input := "b" }).2 =
      some (send { receiveTurn (send ⟨[], "a", false⟩).1 "ok" with input := "b" }).1.history := by
  have h := history_resent_in_full [] "a" "b" "ok" (by decide) (by decide)
  simpa using h

/-- C7: `resolve` never writes to the notebook store — in every branch (cache
hit, successful miss, failure) the saved-entries collection after the call
equals the one before it. -/
theorem resolve_preserves_notebook (s : AppState) (term : String)
    (enrich : Except Unit LookupData) (image : Option String) (now : Nat) :
    (appSearch s term enrich image now).savedEntries = s.savedEntries := by
  unfold appSearch
  cases handleSearch s.savedEntries term enrich image now <;> rfl

/-- C6: for every even-length byte payload the decode produces a sample
buffer of length `byteLength / 2` whose `i`-th sample is the signed
little-endian 16-bit integer at bytes `2i, 2i+1` divided by `32768.0`; in
particular the bytes `[0x00,0x00, 0xFF,0x7F, 0x00,0x80]` decode exactly to
`[0, 32767/32768, -1]`. -/
theorem decode_pcm16_correct :
    (∀ bytes : List Nat, bytes.length % 2 = 0 →
      ∃ out : List Rat, decodeAudioData bytes = some out ∧
        out.length = bytes.length / 2 ∧
        ∀ i : Nat, i < out.length →
          out.getD i 0 =
            ((int16OfPair (bytes.getD (2 * i) 0) (bytes.getD (2 * i + 1) 0) : Int) : Rat)
              / 32768) ∧
    decodeAudioData [0x00, 0x00, 0xFF, 0x7F, 0x00, 0x80] =
      some [0, 32767 / 32768, -1] := by
  constructor
  · intro bytes heven
    obtain ⟨ints, hints⟩ := pcm16Samples_total_of_even bytes heven
    obtain ⟨hlen, hval⟩ := pcm16Samples_spec bytes ints hints
    refine ⟨ints.map (fun v : Int => (v : Rat) / 32768), by simp [decodeAudioData, hints], ?_, ?_⟩
    · simpa using hlen
    · intro i hi'
      have hi2 : i < ints.length := by simpa using hi'
      have hget : (ints.map (fun v : Int => (v : Rat) / 32768)).getD i 0 =
          ((ints.getD i 0 : Int) : Rat) / 32768 := by
        rw [List.getD_eq_getElem?_getD, List.getD_eq_getElem?_getD,
          List.getElem?_map, List.getElem?_eq_getElem hi2]
        simp
      rw [hget, hval i hi2]
  · show decodeAudioData [0, 0, 255, 127, 0, 128] = some [0, 32767 / 32768, -1]
    have h1 : int16OfPair 0 0 = 0 := by decide
    have h2 : int16OfPair 255 127 = 32767 := by decide
    have h3 : int16OfPair 0 128 = -32768 := by decide
    simp only [decodeAudioData, pcm16Samples, h1, h2, h3, Option.map_some, Option.map_some',
      List.map_cons, List.map_nil, Option.some.injEq, List.cons.injEq, and_true]
    norm_num

/-- Witness for C6: the three-sample payload above decodes with the stated
length and sample values. -/
theorem decode_pcm16_correct_witness :
    ∃ out : List Rat, decodeAudioData [0x00, 0x00, 0xFF, 0x7F, 0x00, 0x80] = some out ∧
      out.length = 3 ∧
      ∀ i : Nat, i < out.length →
        out.getD i 0 =
          ((int16OfPair (([0x00, 0x00, 0xFF, 0x7F, 0x00, 0x80] : List Nat).getD (2 * i) 0)
              (([0x00, 0x00, 0xFF, 0x7F, 0x00, 0x80] : List Nat).getD (2 * i + 1) 0) : Int) : Rat)
            / 32768 :=
  decode_pcm16_correct.1 [0x00, 0x00, 0xFF, 0x7F, 0x00, 0x80] (by decide)

/-- C10: every decoded sample lies in `[-1, 32767/32768]`; the value `-1` is
attained (by the int16 value `-32768`, bytes `0x00 0x80`), and `+1` is never
produced since `32767 / 32768 < 1`. -/
theorem decode_sample_range :
    (∀ (bytes : List Nat) (out : List Rat), decodeAudioData bytes = some out →
      ∀ s ∈ out, -1 ≤ s ∧ s ≤ 32767 / 32768) ∧
    decodeAudioData [0x00, 0x80] = some [-1] ∧
    (32767 : Rat) / 32768 < 1 := by
  refine ⟨?_, ?_, by norm_num⟩
  · intro bytes out h s hs
    simp only [decodeAudioData, Option.map_eq_some'] at h
    obtain ⟨ints, hints, rfl⟩ := h
    obtain ⟨v, hv, rfl⟩ := List.mem_map.mp hs
    obtain ⟨hlo, hhi⟩ := pcm16Samples_mem_bounds bytes ints hints v hv
    exact sample_in_range v hlo hhi
  · have h3 : int16OfPair 0 128 = -32768 := by decide
    simp only [decodeAudioData, pcm16Samples, h3, Option.map_some, Option.map_some',
      List.map_cons, List.map_nil, Option.some.injEq, List.cons.injEq, and_true]
    norm_num

/-- Witness for C10: the extreme sample `-1` satisfies the proved bounds. -/
theorem decode_sample_range_witness :
    -1 ≤ (-1 : Rat) ∧ (-1 : Rat) ≤ 32767 / 32768 :=
  decode_sample_range.1 [0x00, 0x80] [-1] decode_sample_range.2.1 (-1) (by simp)

/-- The casefolded key under which the notebook deduplicates. -/
def termKey (e : DictEntry) : String := toLowerCase e.term

/-- The inductive invariant behind the notebook's uniqueness: saved entries
have pairwise distinct casefolded terms and pairwise distinct ids, and any
casefold collision between the viewed entry and a saved entry is the saved
copy of that very entry (same id). -/
def NotebookInv (s : AppState) : Prop :=
  s.savedEntries.Pairwise (fun a b => termKey a ≠ termKey b) ∧
  s.savedEntries.Pairwise (fun a b => a.id ≠ b.id) ∧
  ∀ c : DictEntry, s.currentEntry = some c →
    ∀ e ∈ s.savedEntries, termKey e = termKey c → e.id = c.id

/-- Key-distinctness is a symmetric relation. -/
theorem termKey_ne_symm :
    Symmetric (fun a b : DictEntry => termKey a ≠ termKey b) :=
  fun _ _ hab => hab.symm

/-- A search preserves the notebook invariant. -/
theorem notebookInv_appSearch (s : AppState) (term : String)
    (enrich : Except Unit LookupData) (image : Option String) (now : Nat)
    (h : NotebookInv s) : NotebookInv (appSearch s term enrich image now) := by
  obtain ⟨hP, hR, hQ⟩ := h
  cases hcache : cacheLookup s.savedEntries term with
  | some e0 =>
    have hout : appSearch s term enrich image now = { s with currentEntry := some e0 } := by
      simp [appSearch, handleSearch, hcache]
    rw [hout]
    refine ⟨hP, hR, ?_⟩
    intro c hc e he hkey
    obtain rfl : e0 = c := by simpa using hc
    have hmem : e0 ∈ s.savedEntries := List.mem_of_find?_eq_some hcache
    by_cases hec : e = e0
    · rw [hec]
    · exact absurd hkey (hP.forall termKey_ne_symm he hmem hec)
  | none =>
    cases enrich with
    | error err =>
      have hout : appSearch s term (Except.error err) image now = s := by
        simp [appSearch, handleSearch, hcache]
      rw [hout]
      exact ⟨hP, hR, hQ⟩
    | ok d =>
      have hout : appSearch s term (Except.ok d) image now =
          { s with currentEntry := some (mkEntry term d image now) } := by
        simp [appSearch, handleSearch, hcache]
      rw [hout]
      refine ⟨hP, hR, ?_⟩
      intro c hc e he hkey
      obtain rfl : mkEntry term d image now = c := by simpa using hc
      have hnone := List.find?_eq_none.mp hcache e he
      exact absurd (by simpa [termKey, mkEntry] using hkey)
        (by simpa using hnone)

/-- A save/unsave toggle preserves the notebook invariant. -/
theorem notebookInv_toggleSave (s : AppState) (h : NotebookInv s) :
    NotebookInv (toggleSave s) := by
  obtain ⟨hP, hR, hQ⟩ := h
  cases hcur : s.currentEntry with
  | none =>
    have hout : toggleSave s = s := by simp [toggleSave, hcur]
    rw [hout]
    exact ⟨hP, hR, hQ⟩
  | some c =>
    by_cases hex : s.savedEntries.any (fun e => e.id == c.id)
    · have hout : toggleSave s =
          { s with savedEntries := s.savedEntries.filter (fun e => e.id != c.id) } := by
        simp [toggleSave, hcur, hex]
      rw [hout]
      refine ⟨hP.filter _, hR.filter _, ?_⟩
      intro c' hc' e he hkey
      obtain rfl : c = c' := by simpa [hcur] using hc'
      obtain ⟨hmem, hne⟩ := List.mem_filter.mp he
      exact absurd (hQ c hcur e hmem hkey) (by simpa using hne)
    · have hout : toggleSave s =
          { s with savedEntries := c :: s.savedEntries } := by
        simp only [toggleSave, hcur]
        rw [if_neg hex]
      rw [hout]
      have hids : ∀ e ∈ s.savedEntries, e.id ≠ c.id := by
        intro e he
        intro heq
        exact hex (List.any_eq_true.mpr ⟨e, he, by simpa using heq⟩)
      refine ⟨?_, ?_, ?_⟩
      · rw [List.pairwise_cons]
        refine ⟨?_, hP⟩
        intro e he hkey
        exact hids e he (hQ c hcur e he hkey.symm)
      · rw [List.pairwise_cons]
        exact ⟨fun e he => fun heq => hids e he heq.symm, hR⟩
      · intro c' hc' e he hkey
        obtain rfl : c = c' := by simpa [hcur] using hc'
        rcases List.mem_cons.mp he with rfl | he'
        · rfl
        · exact hQ c hcur e he' hkey

/-- C8: every reachable notebook state is free of duplicates by
case-insensitive term — no two saved entries share a casefolded `term` — and
this uniqueness is preserved by every further search, save or unsave
operation. -/
theorem notebook_no_casefold_duplicates (s : AppState) (h : Reachable s) :
    s.savedEntries.Pairwise (fun a b => toLowerCase a.term ≠ toLowerCase b.term) ∧
    (toggleSave s).savedEntries.Pairwise
      (fun a b => toLowerCase a.term ≠ toLowerCase b.term) ∧
    ∀ (term : String) (enrich : Except Unit LookupData) (image : Option String)
      (now : Nat),
      (appSearch s term enrich image now).savedEntries.Pairwise
        (fun a b => toLowerCase a.term ≠ toLowerCase b.term) := by
  have hinv : NotebookInv s := by
    induction h with
    | init => exact ⟨List.Pairwise.nil, List.Pairwise.nil, by intro c hc; cases hc⟩
    | search s term enrich image now _ ih =>
      exact notebookInv_appSearch s term enrich image now ih
    | save s _ ih => exact notebookInv_toggleSave s ih
  refine ⟨hinv.1, (notebookInv_toggleSave s hinv).1, ?_⟩
  intro term enrich image now
  exact (notebookInv_appSearch s term enrich image now hinv).1

/-- Witness for C8: the state reached by searching `"hola"` (successful
Enrich) and saving the result satisfies the uniqueness property. -/
theorem notebook_no_casefold_duplicates_witness :
    (toggleSave (appSearch ⟨[], none⟩ "hola" (Except.ok holaLookup) none 1)).savedEntries.Pairwise
      (fun a b => toLowerCase a.term ≠ toLowerCase b.term) :=
  (notebook_no_casefold_duplicates _
    (Reachable.save _
      (Reachable.search ⟨[], none⟩ "hola" (Except.ok holaLookup) none 1
        Reachable.init))).1

/-- Witness for C7: a failing search against a one-entry notebook leaves the
notebook as it was. -/
theorem resolve_preserves_notebook_witness :
    (appSearch ⟨[holaEntry], none⟩ "mundo" (Except.error ()) none 5).savedEntries =
      [holaEntry] :=
  resolve_preserves_notebook ⟨[holaEntry], none⟩ "mundo" (Except.error ()) none 5

/-- C9: `evaluateScenario` is total over failures — for every history and
language pair, a failing Oracle call or parse yields exactly the fixed
fallback report, whose corrections list is empty, never absent. -/
theorem evaluate_total_on_failure (hist : List ChatMessage)
    (sourceLang targetLang : Language) (e : Unit) :
    evaluateScenario hist sourceLang targetLang (Except.error e) =
      ⟨0, "Could not evaluate session.", []⟩ ∧
    (evaluateScenario hist sourceLang targetLang (Except.error e)).corrections = [] :=
  ⟨rfl, rfl⟩

/-- Witness for C9: a concrete failing evaluation returns the fallback
report with an empty corrections list. -/
theorem evaluate_total_on_failure_witness :
    evaluateScenario [] Language.English Language.Spanish (Except.error ()) =
      ⟨0, "Could not evaluate session.", []⟩ ∧
    (evaluateScenario [] Language.English Language.Spanish
        (Except.error ())).corrections = [] :=
  evaluate_total_on_failure [] Language.English Language.Spanish ()

end LingoPop
